import Mathlib

/-!
Shallow embedding of the core of `context-weaver` (`src/index.ts`):
the import extractor (`extractImports`), the relevance scorer
(`calculateRelevance`) and the budgeted selector (`getOptimalContext`)
of the `ContextOptimizer` class.

Strings are Lean `String`s (the inputs of interest are ASCII, where
JavaScript's `toLowerCase`, `\w` and `String.prototype.includes`
coincide with the embedding below); JavaScript numbers are embedded as
`ℚ` for scores (all score arithmetic is sums of small integers and
multiplications by 0.5 / 0.7 / 0.8, where sign and zero-ness agree with
IEEE doubles) and `Nat` for sizes and token counts.
-/

namespace ContextWeaver

/-- `isPre sub l` : `sub` is a prefix of `l` (character lists). -/
def isPre : List Char → List Char → Bool
  | [], _ => true
  | _ :: _, [] => false
  | a :: as, b :: bs => a == b && isPre as bs

/-- `containsAt sub l` : `sub` occurs as a contiguous run somewhere in `l`. -/
def containsAt (sub : List Char) : List Char → Bool
  | [] => sub.isEmpty
  | c :: t => isPre sub (c :: t) || containsAt sub t

/-- Embedding of JavaScript `s.includes(sub)`. -/
def strIncludes (s sub : String) : Bool :=
  containsAt sub.toList s.toList

/-- JavaScript regex `\w`: ASCII letters, digits and underscore. -/
def isWordChar (c : Char) : Bool :=
  c.isAlpha || c.isDigit || c == '_'

/-- ASCII lower-casing of one character (what `toLowerCase` does on the
ASCII inputs this development works with). -/
def lowerChar (c : Char) : Char :=
  if c.isUpper then Char.ofNat (c.toNat + 32) else c

/-- Embedding of JavaScript `s.toLowerCase()` (ASCII). -/
def lowerStr (s : String) : String :=
  String.mk (s.toList.map lowerChar)

/-- Accumulator-style splitter into maximal `\w+` runs (`cur` holds the
current run reversed). -/
def tokenizeAux : List Char → List Char → List String
  | cur, [] => if cur.isEmpty then [] else [String.mk cur.reverse]
  | cur, c :: t =>
      if isWordChar c then tokenizeAux (c :: cur) t
      else if cur.isEmpty then tokenizeAux [] t
      else String.mk cur.reverse :: tokenizeAux [] t

/-- Embedding of `s.match(/\w+/g) || []`: the list of maximal word-character
runs of `s`, in order. -/
def wordRuns (s : String) : List String :=
  tokenizeAux [] s.toList

/-- JavaScript `Set` insertion: append unless already present. -/
def setInsert (l : List String) (a : String) : List String :=
  if a ∈ l then l else l ++ [a]

/-- Embedding of `new Set(list)`: first-occurrence deduplication, keeping
insertion order. -/
def setOf (l : List String) : List String :=
  l.foldl setInsert []

/-! ### The regular expressions of `extractImports`

Every regex in the source's pattern tables is a sequence of: literal
characters, single-character classes, greedy `*` / `+` over a character
class, and exactly one capture group which is always a greedy `+` over a
character class.  `PatItem` represents one such element; a pattern is a
`List PatItem`. -/

inductive PatItem where
  | lit (c : Char)
  | cls1 (p : Char → Bool)
  | star0 (p : Char → Bool)
  | plus1 (p : Char → Bool)
  | cap (p : Char → Bool)

/-- Split off the maximal run of characters satisfying `p`. -/
def takeRun (p : Char → Bool) : List Char → List Char × List Char
  | [] => ([], [])
  | c :: t =>
      if p c then
        let r := takeRun p t
        (c :: r.1, r.2)
      else ([], c :: t)

/-- Result of matching a pattern at the start of the input: the capture
group's characters (if the pattern has one) and the input remaining after
the match. -/
abbrev MRes := Option (Option (List Char) × List Char)

/-- Greedy quantifier backtracking: `rcons` is the consumed run reversed
and `k` matches the rest of the pattern; try `k`, giving back one
consumed character at a time.  `needOne` demands at least one consumed
character (`+` vs `*`). -/
def giveBack (k : List Char → MRes) (needOne : Bool) :
    List Char → List Char → MRes
  | rcons, tail =>
      if needOne && rcons.isEmpty then none
      else
        match k tail with
        | some r => some r
        | none =>
            match rcons with
            | [] => none
            | c :: rc => giveBack k needOne rc (c :: tail)

/-- As `giveBack` for the capture group `(p+)`: on success the consumed
run is the capture. -/
def giveBackCap (k : List Char → MRes) : List Char → List Char → MRes
  | rcons, tail =>
      if rcons.isEmpty then none
      else
        match k tail with
        | some r => some (some rcons.reverse, r.2)
        | none =>
            match rcons with
            | [] => none
            | c :: rc => giveBackCap k rc (c :: tail)

/-- Match a pattern at the very start of the input, with the greedy
backtracking semantics of JavaScript regexes. -/
def matchItems : List PatItem → List Char → MRes
  | [], l => some (none, l)
  | PatItem.lit c :: rest, l =>
      match l with
      | [] => none
      | x :: t => if x == c then matchItems rest t else none
  | PatItem.cls1 p :: rest, l =>
      match l with
      | [] => none
      | x :: t => if p x then matchItems rest t else none
  | PatItem.star0 p :: rest, l =>
      giveBack (matchItems rest) false (takeRun p l).1.reverse (takeRun p l).2
  | PatItem.plus1 p :: rest, l =>
      giveBack (matchItems rest) true (takeRun p l).1.reverse (takeRun p l).2
  | PatItem.cap p :: rest, l =>
      giveBackCap (matchItems rest) (takeRun p l).1.reverse (takeRun p l).2

/-- Fuelled embedding of the `while ((match = pattern.exec(content))
!== null)` loop over a global regex: leftmost match, then continue after
the match's end; each defined, non-empty first capture is collected in
order.  One unit of fuel is spent per scan position; `l.length + 1` units
suffice because every pattern in the tables begins with a literal and so
consumes at least one character per match. -/
def execAllF : Nat → List PatItem → List Char → List String
  | 0, _, _ => []
  | fuel + 1, pat, l =>
      match matchItems pat l with
      | some capRest =>
          (match capRest.1 with
           | some c => if c.isEmpty then [] else [String.mk c]
           | none => []) ++ execAllF fuel pat capRest.2
      | none =>
          match l with
          | [] => []
          | _ :: t => execAllF fuel pat t

/-- Run a global regex over the whole input. -/
def execAll (pat : List PatItem) (l : List Char) : List String :=
  execAllF (l.length + 1) pat l

/-- Shorthand for a literal word in a pattern. -/
def lits (s : String) : List PatItem :=
  s.toList.map PatItem.lit

/-- JavaScript `\s` (the whitespace characters relevant to ASCII input). -/
def isSpaceChar (c : Char) : Bool :=
  c == ' ' || c == '\t' || c == '\n' || c == '\r' ||
    c == '\x0b' || c == '\x0c'

/-- The class `[.\w]`. -/
def isDotWord (c : Char) : Bool := c == '.' || isWordChar c
/-- The class `[:\w]`. -/
def isColonWord (c : Char) : Bool := c == ':' || isWordChar c
/-- The class `['"]`. -/
def isQuote (c : Char) : Bool := c == '\x27' || c == '\x22'
/-- The class `[^'"]`. -/
def notQuote (c : Char) : Bool := !isQuote c
/-- JavaScript `.` without the `s` flag: any char except line terminators. -/
def isDotAny (c : Char) : Bool := !(c == '\n' || c == '\r')

/-- `/from\s+([.\w]+)\s+import/` -/
def pyFromPat : List PatItem :=
  lits "from" ++ [PatItem.plus1 isSpaceChar, PatItem.cap isDotWord,
    PatItem.plus1 isSpaceChar] ++ lits "import"

/-- `/import\s+([.\w]+)/` -/
def pyImportPat : List PatItem :=
  lits "import" ++ [PatItem.plus1 isSpaceChar, PatItem.cap isDotWord]

/-- `/from\s+['"]([^'"]+)['"]/` -/
def jsFromPat : List PatItem :=
  lits "from" ++ [PatItem.plus1 isSpaceChar, PatItem.cls1 isQuote,
    PatItem.cap notQuote, PatItem.cls1 isQuote]

/-- `/require\(['"]([^'"]+)['"]\)/` -/
def jsRequirePat : List PatItem :=
  lits "require(" ++ [PatItem.cls1 isQuote, PatItem.cap notQuote,
    PatItem.cls1 isQuote] ++ lits ")"

/-- `/import\s+['"]([^'"]+)['"]/` -/
def jsImportBarePat : List PatItem :=
  lits "import" ++ [PatItem.plus1 isSpaceChar, PatItem.cls1 isQuote,
    PatItem.cap notQuote, PatItem.cls1 isQuote]

/-- `/import\s+.*\s+from\s+['"]([^'"]+)['"]/` -/
def jsImportFromPat : List PatItem :=
  lits "import" ++ [PatItem.plus1 isSpaceChar, PatItem.star0 isDotAny,
    PatItem.plus1 isSpaceChar] ++ lits "from" ++
    [PatItem.plus1 isSpaceChar, PatItem.cls1 isQuote,
      PatItem.cap notQuote, PatItem.cls1 isQuote]

/-- `/import\s+([.\w]+);/` -/
def javaImportPat : List PatItem :=
  lits "import" ++ [PatItem.plus1 isSpaceChar, PatItem.cap isDotWord,
    PatItem.lit ';']

/-- `/use\s+([:\w]+)/` -/
def rustUsePat : List PatItem :=
  lits "use" ++ [PatItem.plus1 isSpaceChar, PatItem.cap isColonWord]

/-- The class `[<"]`. -/
def isOpenInc (c : Char) : Bool := c == '<' || c == '\x22'
/-- The class `[^>"]`. -/
def notCloseInc (c : Char) : Bool := !(c == '>' || c == '\x22')
/-- The class `[>"]`. -/
def isCloseInc (c : Char) : Bool := c == '>' || c == '\x22'

/-- `/#include\s+[<"]([^>"]+)[>"]/` -/
def cIncludePat : List PatItem :=
  lits "#include" ++ [PatItem.plus1 isSpaceChar, PatItem.cls1 isOpenInc,
    PatItem.cap notCloseInc, PatItem.cls1 isCloseInc]

/-- The `switch (extension)` table of `extractImports`. -/
def patternsFor (extension : String) : List (List PatItem) :=
  if extension == ".py" then [pyFromPat, pyImportPat]
  else if extension == ".js" || extension == ".ts" || extension == ".jsx" ||
      extension == ".tsx" || extension == ".vue" || extension == ".svelte" then
    [jsFromPat, jsRequirePat, jsImportBarePat, jsImportFromPat]
  else if extension == ".java" then [javaImportPat]
  else if extension == ".go" then [jsImportBarePat]
  else if extension == ".rs" then [rustUsePat]
  else if extension == ".cpp" || extension == ".c" || extension == ".h" ||
      extension == ".hpp" then [cIncludePat]
  else []

/-- Embedding of `ContextOptimizer.extractImports`: run every pattern of
the extension's table over the content, collecting first captures into a
`Set` (insertion-ordered, deduplicated list). -/
def extractImports (content : String) (extension : String) : List String :=
  setOf ((patternsFor extension).flatMap (fun pat => execAll pat content.toList))

/-! ### Data model -/

/-- One catalog entry (`FileInfo` in the source).  The catalog itself is a
`List FileInfo` in `Map` insertion order; `relevanceScore` is not stored,
scoring is embedded as a pure function. -/
structure FileInfo where
  path : String
  size : Nat
  extension : String
  imports : List String
  content : String
deriving DecidableEq, Repr

/-- `path.basename`: the component after the last `/` (computed from the
reversed character list, structurally). -/
def basename (p : String) : String :=
  String.mk (p.toList.reverse.takeWhile (fun c => !(c == '/'))).reverse

/-- `this.files.get(p)`: lookup by path (paths are unique keys, so the
first match is the entry). -/
def lookup (files : List FileInfo) (p : String) : Option FileInfo :=
  files.find? (fun f => f.path == p)

/-! ### Relevance scorer -/

/-- The `for (const ctxFile of contextFiles)` loop of `calculateRelevance`:
`score += 8` for every context file that is in the catalog and has
an import target occurring as a substring of `relativePath`. -/
def seedLoop (files : List FileInfo) (relativePath : String) :
    List String → ℚ → ℚ
  | [], score => score
  | c :: ctx, score =>
      seedLoop files relativePath ctx
        (match lookup files c with
         | some ci =>
             if ci.imports.any (fun imp => strIncludes relativePath imp) then
               score + 8
             else score
         | none => score)

/-- The per-file body of `calculateRelevance`, given the already-computed
query word set.  Each `let` mirrors one `score` update of the source. -/
def calcScore (files : List FileInfo) (queryWords : List String)
    (contextFiles : List String) (f : FileInfo) : ℚ :=
  let filename := lowerStr (basename f.path)
  let s1 : ℚ := if queryWords.any (fun w => strIncludes filename w) then 10 else 0
  let pathLower := lowerStr f.path
  let pathMatches := (queryWords.filter (fun w => strIncludes pathLower w)).length
  let s2 := s1 + pathMatches * 5
  let contentLower := lowerStr f.content
  let contentMatches :=
    (queryWords.filter (fun w => strIncludes contentLower w)).length
  let s3 := s2 + contentMatches * 2
  let s4 := if f.path ∈ contextFiles then s3 + 15 else s3
  let s5 := seedLoop files f.path contextFiles s4
  let s6 :=
    if f.extension ∈ [".md", ".txt"] then s5 * (1 / 2)
    else if strIncludes pathLower "test" || strIncludes pathLower "spec" then
      s5 * (7 / 10)
    else if strIncludes pathLower "config" ||
        decide (f.extension ∈ [".json", ".yaml", ".yml", ".toml"]) then
      s5 * (4 / 5)
    else s5
  if filename == "package.json" || filename == "main.py" ||
      filename == "index.ts" then s6 + 5
  else s6

/-- Embedding of `ContextOptimizer.calculateRelevance`: tokenize the
query, then score every catalog file in catalog order, returning the
`Map<string, number>` as an association list. -/
def calculateRelevance (files : List FileInfo) (query : String)
    (contextFiles : List String) : List (String × ℚ) :=
  let queryWords := setOf (wordRuns (lowerStr query))
  files.map (fun f => (f.path, calcScore files queryWords contextFiles f))

/-! ### The stages of one scoring pass, named

The next three definitions name the two halves of `calcScore` exactly as
the source computes them: the additive accumulation up to and including
the seed loop (`rawScore`, the value of `score` just before the decay
`if`-chain), the single multiplicative factor chosen by that chain
(`decayFactor`), and the flat bonus added after it (`entryBonus`). -/

/-- The value of `score` after steps 1–6 (all additive terms). -/
def rawScore (files : List FileInfo) (queryWords contextFiles : List String)
    (f : FileInfo) : ℚ :=
  let filename := lowerStr (basename f.path)
  let s1 : ℚ := if queryWords.any (fun w => strIncludes filename w) then 10 else 0
  let pathLower := lowerStr f.path
  let s2 := s1 + (queryWords.filter (fun w => strIncludes pathLower w)).length * 5
  let contentLower := lowerStr f.content
  let s3 := s2 + (queryWords.filter (fun w => strIncludes contentLower w)).length * 2
  let s4 := if f.path ∈ contextFiles then s3 + 15 else s3
  seedLoop files f.path contextFiles s4

/-- The multiplicative factor selected by the decay `if`-chain. -/
def decayFactor (f : FileInfo) : ℚ :=
  let pathLower := lowerStr f.path
  if f.extension ∈ [".md", ".txt"] then 1 / 2
  else if strIncludes pathLower "test" || strIncludes pathLower "spec" then 7 / 10
  else if strIncludes pathLower "config" ||
      decide (f.extension ∈ [".json", ".yaml", ".yml", ".toml"]) then 4 / 5
  else 1

/-- The flat `+5` for canonical entry-point filenames. -/
def entryBonus (f : FileInfo) : ℚ :=
  let filename := lowerStr (basename f.path)
  if filename == "package.json" || filename == "main.py" ||
      filename == "index.ts" then 5
  else 0

/-- One context file `c` qualifies a scored path for the `+8` boost when
`c` is in the catalog and one of its import targets occurs in the path. -/
def seedQualifies (files : List FileInfo) (relativePath : String)
    (c : String) : Bool :=
  match lookup files c with
  | some ci => ci.imports.any (fun imp => strIncludes relativePath imp)
  | none => false

/-! ### Context selector -/

/-- Stable insertion for descending sort: `x` goes before the first
element whose score is ≤ its own, hence before equal-scored elements that
were originally after it. -/
def insDesc (x : FileInfo × ℚ) : List (FileInfo × ℚ) → List (FileInfo × ℚ)
  | [] => [x]
  | y :: t => if y.2 ≤ x.2 then x :: y :: t else y :: insDesc x t

/-- Embedding of `.sort((a, b) => b.relevanceScore - a.relevanceScore)`:
a stable sort by descending score (JavaScript `Array.prototype.sort` is
stable). -/
def sortDesc (l : List (FileInfo × ℚ)) : List (FileInfo × ℚ) :=
  l.foldr insDesc []

/-- `Math.ceil(content.length / 4)`. -/
def fileTokens (f : FileInfo) : Nat :=
  (f.content.length + 3) / 4

/-- The selection walk of `getOptimalContext` over the sorted, scored
list: `count` is `selected.length`, `total` is `totalTokens`. -/
def selectWalk (maxTokens minFiles : Nat) :
    List (FileInfo × ℚ) → Nat → Nat → List (FileInfo × ℚ)
  | [], _, _ => []
  | (f, s) :: rest, count, total =>
      if s = 0 ∧ minFiles ≤ count then []
      else if total + fileTokens f ≤ maxTokens then
        (f, s) :: selectWalk maxTokens minFiles rest (count + 1)
          (total + fileTokens f)
      else if count < minFiles then
        (f, s) :: selectWalk maxTokens minFiles rest (count + 1)
          (total + fileTokens f)
      else selectWalk maxTokens minFiles rest count total

/-- Embedding of `ContextOptimizer.getOptimalContext`: score, sort
descending (stably), then greedily select under the token budget with the
`minFiles` floor. -/
def getOptimalContext (files : List FileInfo) (query : String)
    (maxTokens : Nat := 100000) (minFiles : Nat := 3)
    (contextFiles : List String := []) : List FileInfo :=
  let queryWords := setOf (wordRuns (lowerStr query))
  let scored := files.map (fun f => (f, calcScore files queryWords contextFiles f))
  let sorted := sortDesc scored
  (selectWalk maxTokens minFiles sorted 0 0).map Prod.fst

/-! ### Concrete catalogs used to instantiate the properties -/

/-- Seed file `api.ts` whose extracted import set is `{"./db"}` (as
`extractImports "import './db'" ".ts"` produces). -/
def apiSeed : FileInfo :=
  { path := "api.ts", size := 13, extension := ".ts",
    imports := ["./db"], content := "import './db'" }

/-- The same seed with import target `"db"` instead of `"./db"`. -/
def apiSeedDb : FileInfo :=
  { path := "api.ts", size := 11, extension := ".ts",
    imports := ["db"], content := "import 'db'" }

/-- The file the seed is meant to boost. -/
def dbClient : FileInfo :=
  { path := "src/db/client.ts", size := 9, extension := ".ts",
    imports := [], content := "let x = 1" }

/-- A markdown file whose path also contains `"config"`. -/
def settingsDoc : FileInfo :=
  { path := "docs/config/settings.md", size := 1, extension := ".md",
    imports := [], content := "x" }

/-- A canonical entry-point file that also falls under the `.json` decay. -/
def pkgJson : FileInfo :=
  { path := "package.json", size := 1, extension := ".json",
    imports := [], content := "x" }

/-- First of five files on which the empty query scores 0. -/
def zA : FileInfo :=
  { path := "a.ts", size := 1, extension := ".ts", imports := [], content := "a" }
/-- Second zero-scoring file. -/
def zB : FileInfo :=
  { path := "b.ts", size := 1, extension := ".ts", imports := [], content := "b" }
/-- Third zero-scoring file. -/
def zC : FileInfo :=
  { path := "c.ts", size := 1, extension := ".ts", imports := [], content := "c" }
/-- Fourth zero-scoring file. -/
def zD : FileInfo :=
  { path := "d.ts", size := 1, extension := ".ts", imports := [], content := "d" }
/-- Fifth zero-scoring file. -/
def zE : FileInfo :=
  { path := "e.ts", size := 1, extension := ".ts", imports := [], content := "e" }

/-- A five-file catalog on which the empty query scores every file 0. -/
def zeroCatalog : List FileInfo := [zA, zB, zC, zD, zE]

/-- Highest-scoring candidate for the query `"alpha"`; costs 2 tokens. -/
def alphaMain : FileInfo :=
  { path := "alpha.ts", size := 5, extension := ".ts",
    imports := [], content := "alpha" }

/-- Mid-scoring candidate whose 60-character content costs 15 tokens,
more than the 10-token budget used in the selection scenario. -/
def alphaBig : FileInfo :=
  { path := "alpha/big.ts", size := 60, extension := ".ts",
    imports := [], content := String.mk (List.replicate 60 'x') }

/-- Low-scoring cheap candidate that follows the over-budget one. -/
def alphaSmall : FileInfo :=
  { path := "c.ts", size := 5, extension := ".ts",
    imports := [], content := "alpha" }

/-! ### Helper lemmas -/

/-- The seed loop adds exactly `8` per qualifying context file. -/
theorem seedLoop_eq (files : List FileInfo) (p : String) :
    ∀ (ctx : List String) (s : ℚ),
      seedLoop files p ctx s =
        s + 8 * ((ctx.filter (seedQualifies files p)).length : ℚ)
  | [], s => by simp [seedLoop]
  | c :: ctx, s => by
      have hstep :
          (match lookup files c with
           | some ci =>
               if ci.imports.any (fun imp => strIncludes p imp) then s + 8
               else s
           | none => s) = if seedQualifies files p c then s + 8 else s := by
        unfold seedQualifies
        cases lookup files c <;> simp
      rw [show seedLoop files p (c :: ctx) s =
            seedLoop files p ctx
              (match lookup files c with
               | some ci =>
                   if ci.imports.any (fun imp => strIncludes p imp) then s + 8
                   else s
               | none => s) from rfl,
          hstep, seedLoop_eq files p ctx, List.filter_cons]
      by_cases hq : seedQualifies files p c = true <;> simp [hq] <;> push_cast <;> ring

/-- `calcScore` is the additive accumulation, scaled once by the decay
factor, plus the entry-point bonus. -/
theorem calcScore_eq (files : List FileInfo) (qw ctx : List String)
    (f : FileInfo) :
    calcScore files qw ctx f =
      rawScore files qw ctx f * decayFactor f + entryBonus f := by
  simp only [calcScore, rawScore, decayFactor, entryBonus]
  split_ifs <;> ring

/-- Every additive term of the scorer is non-negative. -/
theorem rawScore_nonneg (files : List FileInfo) (qw ctx : List String)
    (f : FileInfo) : 0 ≤ rawScore files qw ctx f := by
  simp only [rawScore, seedLoop_eq]
  split_ifs <;> positivity

/-- The decay multiplier is one of `1/2`, `7/10`, `4/5`, `1`, hence
strictly positive. -/
theorem decayFactor_pos (f : FileInfo) : 0 < decayFactor f := by
  simp only [decayFactor]
  split_ifs <;> norm_num

/-- The entry-point bonus is `0` or `5`. -/
theorem entryBonus_nonneg (f : FileInfo) : 0 ≤ entryBonus f := by
  simp only [entryBonus]
  split_ifs <;> norm_num

/-- Lower-casing leaves a non-word character unchanged. -/
theorem lowerChar_of_nonword {c : Char} (h : isWordChar c = false) :
    lowerChar c = c := by
  have hu : c.isUpper = false := by
    cases hcu : c.isUpper
    · rfl
    · exfalso
      simp [isWordChar, Char.isAlpha, hcu] at h
  simp [lowerChar, hu]

/-- A character list with no word characters has no `\w+` runs. -/
theorem tokenizeAux_nil {l : List Char} (h : ∀ c ∈ l, isWordChar c = false) :
    tokenizeAux [] l = [] := by
  induction l with
  | nil => simp [tokenizeAux]
  | cons c t ih =>
      have hc := h c (List.mem_cons_self c t)
      simp [tokenizeAux, hc,
        ih (fun d hd => h d (List.mem_cons_of_mem c hd))]

/-- A query with no word characters tokenizes to the empty word set. -/
theorem queryWords_nil (q : String) (h : ∀ c ∈ q.toList, isWordChar c = false) :
    setOf (wordRuns (lowerStr q)) = [] := by
  have hl : (lowerStr q).toList = q.toList.map lowerChar := rfl
  unfold wordRuns
  rw [hl, tokenizeAux_nil]
  · simp [setOf]
  · intro c hc
    obtain ⟨d, hd, rfl⟩ := List.mem_map.mp hc
    rw [lowerChar_of_nonword (h d hd)]
    exact h d hd

/-- Stability of the insertion step: filtering the insertion result by a
score value either prepends `x` (when `x` has that score) or leaves the
filtered list unchanged — elements passed over all have strictly larger
scores. -/
theorem insDesc_filter (x : FileInfo × ℚ) (l : List (FileInfo × ℚ)) (q : ℚ) :
    (insDesc x l).filter (fun z => z.2 == q) =
      if x.2 == q then x :: l.filter (fun z => z.2 == q)
      else l.filter (fun z => z.2 == q) := by
  induction l with
  | nil =>
      simp only [insDesc, List.filter_cons, List.filter_nil]
  | cons y t ih =>
      by_cases hle : y.2 ≤ x.2
      · rw [show insDesc x (y :: t) = x :: y :: t from by simp [insDesc, hle]]
        rw [List.filter_cons]
      · rw [show insDesc x (y :: t) = y :: insDesc x t from by
            simp [insDesc, hle]]
        rw [List.filter_cons, ih, List.filter_cons]
        by_cases hx : (x.2 == q) = true
        · have hxq : x.2 = q := by simpa using hx
          have hy : (y.2 == q) = false := by
            have : q < y.2 := hxq ▸ lt_of_not_le hle
            simp [beq_iff_eq]
            exact (ne_of_gt this)
          simp [hx, hy]
        · simp [hx]

/-- The stable sort keeps equally-scored entries in their original
relative order: filtering by any fixed score value commutes with it. -/
theorem sortDesc_filter (l : List (FileInfo × ℚ)) (q : ℚ) :
    (sortDesc l).filter (fun z => z.2 == q) =
      l.filter (fun z => z.2 == q) := by
  induction l with
  | nil => simp [sortDesc]
  | cons x t ih =>
      rw [show sortDesc (x :: t) = insDesc x (sortDesc t) from rfl,
        insDesc_filter, List.filter_cons]
      by_cases hx : (x.2 == q) = true <;> simp [hx, ih]

/-- Sorting a list whose scores are all `0` is the identity. -/
theorem sortDesc_zero (l : List (FileInfo × ℚ)) (h : ∀ x ∈ l, x.2 = 0) :
    sortDesc l = l := by
  induction l with
  | nil => rfl
  | cons x t ih =>
      rw [show sortDesc (x :: t) = insDesc x (sortDesc t) from rfl,
        ih (fun y hy => h y (List.mem_cons_of_mem x hy))]
      cases t with
      | nil => rfl
      | cons y t' =>
          have hy : y.2 = 0 := h y (by simp)
          have hx : x.2 = 0 := h x (by simp)
          simp [insDesc, hy, hx]

/-- With all scores `0`, the walk takes exactly the files still needed to
reach the `minFiles` floor. -/
theorem selectWalk_zero (maxT minF : Nat) :
    ∀ (l : List (FileInfo × ℚ)) (count total : Nat), (∀ x ∈ l, x.2 = 0) →
      selectWalk maxT minF l count total = l.take (minF - count) := by
  intro l
  induction l with
  | nil => intro count total _; simp [selectWalk]
  | cons x t ih =>
      intro count total hz
      obtain ⟨f, s⟩ := x
      have hs : s = 0 := hz (f, s) (List.mem_cons_self _ t)
      subst hs
      by_cases hc : minF ≤ count
      · rw [show selectWalk maxT minF ((f, 0) :: t) count total = [] from by
            simp [selectWalk, hc]]
        rw [Nat.sub_eq_zero_of_le hc, List.take_zero]
      · have hrec := ih (count + 1) (total + fileTokens f)
          (fun y hy => hz y (List.mem_cons_of_mem _ hy))
        have hstep : selectWalk maxT minF ((f, 0) :: t) count total =
            (f, 0) :: selectWalk maxT minF t (count + 1) (total + fileTokens f) := by
          simp only [selectWalk]
          rw [if_neg (by simp [hc])]
          split_ifs with h1 h2
          · rfl
          · rfl
          · omega
        rw [hstep, hrec, show minF - count = (minF - (count + 1)) + 1 from by
          omega, List.take_succ_cons]

/-- On an all-zero-scoring catalog the selector returns the first
`minFiles` files in catalog order. -/
theorem getOptimalContext_zero (files : List FileInfo) (q : String)
    (maxT minF : Nat) (ctx : List String)
    (hz : ∀ f ∈ files,
      calcScore files (setOf (wordRuns (lowerStr q))) ctx f = 0) :
    getOptimalContext files q maxT minF ctx = files.take minF := by
  show List.map Prod.fst
      (selectWalk maxT minF
        (sortDesc (files.map
          (fun f => (f, calcScore files (setOf (wordRuns (lowerStr q))) ctx f))))
        0 0) = files.take minF
  have hall : ∀ x ∈ files.map
      (fun f => (f, calcScore files (setOf (wordRuns (lowerStr q))) ctx f)),
      x.2 = 0 := by
    intro x hx
    obtain ⟨f, hf, rfl⟩ := List.mem_map.mp hx
    exact hz f hf
  rw [sortDesc_zero _ hall, selectWalk_zero _ _ _ _ _ hall, Nat.sub_zero,
    ← List.map_take, List.map_map]
  rw [show (Prod.fst ∘ fun f =>
      (f, calcScore files (setOf (wordRuns (lowerStr q))) ctx f)) = id from rfl]
  rw [List.map_id]

/-! ### The claims -/

/-- C1 counterexample: the spec's own example does not fire.  `api.ts`
has extracted import set `{"./db"}`, yet `"./db"` is not a substring of
`"src/db/client.ts"`, so with `context_files = ["api.ts"]` and the empty
query the score of `src/db/client.ts` is `0`, not the claimed `0 + 8`. -/
theorem seed_example_no_boost :
    extractImports "import './db'" ".ts" = ["./db"] ∧
    strIncludes "src/db/client.ts" "./db" = false ∧
    calculateRelevance [apiSeed, dbClient] "" ["api.ts"] =
      [("api.ts", 15), ("src/db/client.ts", 0)] ∧
    (0 : ℚ) ≠ 0 + 8 := by
  exact ⟨by decide, by decide, by with_unfolding_all decide, by norm_num⟩

/-- C1 (amended): the `+8` boost is added exactly once per seed file in
`context_files` that is present in the catalog and has at least one
extracted import target occurring as a substring of the scored file's
relative path; with the seed's import target `"db"` (which is a substring
of `"src/db/client.ts"`) the example file's score does become `8`. -/
theorem seed_boost_amended :
    (∀ (files : List FileInfo) (p : String) (ctx : List String) (s : ℚ),
       seedLoop files p ctx s =
         s + 8 * ((ctx.filter (seedQualifies files p)).length : ℚ)) ∧
    strIncludes "src/db/client.ts" "db" = true ∧
    calculateRelevance [apiSeedDb, dbClient] "" ["api.ts"] =
      [("api.ts", 15), ("src/db/client.ts", 8)] :=
  ⟨seedLoop_eq, by decide, by with_unfolding_all decide⟩

/-- C2 counterexample: on `"import os\nfrom collections import
OrderedDict"` with extension `.py`, the second pattern
`import\s+([.\w]+)` also matches `import OrderedDict`, so the extracted
set is not `{"os", "collections"}`. -/
theorem extract_py_counterexample :
    "OrderedDict" ∈
      extractImports "import os\nfrom collections import OrderedDict" ".py" ∧
    "OrderedDict" ∉ (["os", "collections"] : List String) := by
  exact ⟨by decide, by decide⟩

/-- C2 (amended): the extraction returns exactly
`{"collections", "os", "OrderedDict"}` (in that insertion order). -/
theorem extract_py_amended :
    extractImports "import os\nfrom collections import OrderedDict" ".py" =
      ["collections", "os", "OrderedDict"] := by
  decide

/-- C3: in the selection walk, an over-budget candidate is still included
(cost and all) while fewer than `minFiles` files are selected, and is
skipped without ending the walk once the floor is met; concretely, with a
10-token budget and floor 1, the 15-token mid-scoring file is skipped but
the cheaper lower-scoring file after it is still selected, and a file
over budget on its own is included when the floor demands it. -/
theorem budget_walk_policy :
    (∀ (maxT minF : Nat) (f : FileInfo) (s : ℚ) (rest : List (FileInfo × ℚ))
       (count total : Nat),
       ¬(s = 0 ∧ minF ≤ count) → maxT < total + fileTokens f →
       count < minF →
       selectWalk maxT minF ((f, s) :: rest) count total =
         (f, s) :: selectWalk maxT minF rest (count + 1)
           (total + fileTokens f)) ∧
    (∀ (maxT minF : Nat) (f : FileInfo) (s : ℚ) (rest : List (FileInfo × ℚ))
       (count total : Nat),
       ¬(s = 0 ∧ minF ≤ count) → maxT < total + fileTokens f →
       minF ≤ count →
       selectWalk maxT minF ((f, s) :: rest) count total =
         selectWalk maxT minF rest count total) ∧
    getOptimalContext [alphaMain, alphaBig, alphaSmall] "alpha" 10 1 [] =
      [alphaMain, alphaSmall] ∧
    10 < fileTokens alphaBig ∧
    getOptimalContext [alphaBig] "alpha" 10 1 [] = [alphaBig] := by
  refine ⟨?_, ?_, by with_unfolding_all decide, by decide,
    by with_unfolding_all decide⟩
  · intro maxT minF f s rest count total h1 h2 h3
    simp only [selectWalk]
    rw [if_neg h1, if_neg (by omega), if_pos h3]
  · intro maxT minF f s rest count total h1 h2 h3
    simp only [selectWalk]
    rw [if_neg h1, if_neg (by omega), if_neg (Nat.not_lt.mpr h3)]

/-- Witness for C3: both walk equations instantiated on the concrete
over-budget file. -/
theorem budget_walk_policy_witness :
    selectWalk 10 3 [(alphaBig, 5)] 0 0 =
      (alphaBig, 5) :: selectWalk 10 3 [] 1 (0 + fileTokens alphaBig) ∧
    selectWalk 10 1 [(alphaBig, 5), (alphaSmall, 2)] 1 2 =
      selectWalk 10 1 [(alphaSmall, 2)] 1 2 :=
  ⟨budget_walk_policy.1 10 3 alphaBig 5 [] 0 0 (by norm_num) (by decide)
     (by decide),
   budget_walk_policy.2.1 10 1 alphaBig 5 [(alphaSmall, 2)] 1 2 (by norm_num)
     (by decide) (by decide)⟩

/-- C4: on any five-file catalog where every file scores 0, selection
with `minFiles = 3` returns exactly the first three files in catalog
order; in general the walk stops at a zero-score file only once at least
`minFiles` files are selected, and selects zero-score files until the
floor is reached. -/
theorem zero_score_floor :
    (∀ (maxT : Nat) (q : String) (ctx : List String)
       (f1 f2 f3 f4 f5 : FileInfo),
       (∀ f ∈ [f1, f2, f3, f4, f5],
          calcScore [f1, f2, f3, f4, f5]
            (setOf (wordRuns (lowerStr q))) ctx f = 0) →
       getOptimalContext [f1, f2, f3, f4, f5] q maxT 3 ctx = [f1, f2, f3]) ∧
    (∀ (maxT minF : Nat) (f : FileInfo) (s : ℚ)
       (rest : List (FileInfo × ℚ)) (count total : Nat),
       s = 0 → minF ≤ count →
       selectWalk maxT minF ((f, s) :: rest) count total = []) ∧
    (∀ (maxT minF : Nat) (f : FileInfo) (s : ℚ)
       (rest : List (FileInfo × ℚ)) (count total : Nat),
       s = 0 → count < minF →
       selectWalk maxT minF ((f, s) :: rest) count total =
         (f, s) :: selectWalk maxT minF rest (count + 1)
           (total + fileTokens f)) := by
  refine ⟨?_, ?_, ?_⟩
  · intro maxT q ctx f1 f2 f3 f4 f5 hz
    rw [getOptimalContext_zero _ _ _ _ _ hz]
    rfl
  · intro maxT minF f s rest count total h1 h2
    simp [selectWalk, h1, h2]
  · intro maxT minF f s rest count total h1 h2
    subst h1
    simp only [selectWalk]
    rw [if_neg (fun hand => absurd hand.2 (Nat.not_le_of_lt h2))]
    by_cases hb : total + fileTokens f ≤ maxT
    · rw [if_pos hb]
    · rw [if_neg hb, if_pos h2]

/-- Witness for C4: the five concrete `.ts` one-letter files all score 0
on the empty query and the selector keeps exactly the first three. -/
theorem zero_score_floor_witness :
    getOptimalContext [zA, zB, zC, zD, zE] "" 100000 3 [] = [zA, zB, zC] ∧
    selectWalk 7 2 [(zA, 0), (zB, 0)] 2 0 = [] ∧
    selectWalk 7 2 [(zA, 0)] 0 0 =
      (zA, 0) :: selectWalk 7 2 [] 1 (0 + fileTokens zA) :=
  ⟨zero_score_floor.1 100000 "" [] zA zB zC zD zE (by with_unfolding_all decide),
   zero_score_floor.2.1 7 2 zA 0 [(zB, 0)] 2 0 rfl (by decide),
   zero_score_floor.2.2 7 2 zA 0 [] 0 0 rfl (by decide)⟩

/-- C5: the category decay is a single multiplicative factor chosen by
mutually exclusive checks in the documented order, so a `.md` file whose
path also contains `"config"` is multiplied only by `1/2`: concretely
`docs/config/settings.md` scores `15 * (1/2) = 15/2` for the query
`"settings"`, not `15 * (4/5)` and not `15 * (1/2) * (4/5)`. -/
theorem decay_precedence :
    (∀ (files : List FileInfo) (qw ctx : List String) (f : FileInfo),
       calcScore files qw ctx f =
         rawScore files qw ctx f * decayFactor f + entryBonus f) ∧
    (∀ f : FileInfo, f.extension ∈ [".md", ".txt"] → decayFactor f = 1 / 2) ∧
    calculateRelevance [settingsDoc] "settings" [] =
      [("docs/config/settings.md", 15 / 2)] ∧
    strIncludes (lowerStr settingsDoc.path) "config" = true ∧
    (15 / 2 : ℚ) = 15 * (1 / 2) ∧ (15 / 2 : ℚ) ≠ 15 * (4 / 5) ∧
    (15 / 2 : ℚ) ≠ 15 * (1 / 2) * (4 / 5) := by
  refine ⟨calcScore_eq, ?_, by with_unfolding_all decide, by decide,
    by norm_num, by norm_num, by norm_num⟩
  intro f h
  simp only [decayFactor]
  rw [if_pos h]

/-- Witness for C5: the decomposition and the `.md` decay evaluated on
the concrete markdown file whose path contains `"config"`. -/
theorem decay_precedence_witness :
    calcScore [settingsDoc] ["settings"] [] settingsDoc =
      rawScore [settingsDoc] ["settings"] [] settingsDoc *
        decayFactor settingsDoc + entryBonus settingsDoc ∧
    decayFactor settingsDoc = 1 / 2 :=
  ⟨decay_precedence.1 [settingsDoc] ["settings"] [] settingsDoc,
   decay_precedence.2.1 settingsDoc (by decide)⟩

/-- C6: for a file whose lower-cased base filename is one of the
entry-point names, the score is the additive sum times the decay factor
plus an undiscounted `5` (hence always at least `5`); concretely
`package.json` scores `15 * (4/5) + 5 = 17`, not `(15 + 5) * (4/5)`. -/
theorem entry_bonus_undecayed :
    (∀ (files : List FileInfo) (qw ctx : List String) (f : FileInfo),
       lowerStr (basename f.path) ∈ ["package.json", "main.py", "index.ts"] →
       calcScore files qw ctx f =
           rawScore files qw ctx f * decayFactor f + 5 ∧
         5 ≤ calcScore files qw ctx f) ∧
    calculateRelevance [pkgJson] "package" [] = [("package.json", 17)] ∧
    (17 : ℚ) = 15 * (4 / 5) + 5 ∧ (17 : ℚ) ≠ (15 + 5) * (4 / 5) := by
  refine ⟨?_, by with_unfolding_all decide, by norm_num, by norm_num⟩
  intro files qw ctx f h
  have hb : entryBonus f = 5 := by
    simp only [List.mem_cons, List.not_mem_nil, or_false] at h
    have hcond : (lowerStr (basename f.path) == "package.json" ||
        lowerStr (basename f.path) == "main.py" ||
        lowerStr (basename f.path) == "index.ts") = true := by
      rcases h with h | h | h <;> simp [h]
    simp [entryBonus, hcond]
  have heq : calcScore files qw ctx f =
      rawScore files qw ctx f * decayFactor f + 5 := by
    rw [calcScore_eq, hb]
  refine ⟨heq, ?_⟩
  rw [heq]
  have h1 := rawScore_nonneg files qw ctx f
  have h2 := (decayFactor_pos f).le
  have h3 := mul_nonneg h1 h2
  linarith

/-- Witness for C6: the entry-point property evaluated on the concrete
`package.json` catalog. -/
theorem entry_bonus_undecayed_witness :
    calcScore [pkgJson] ["package"] [] pkgJson =
      rawScore [pkgJson] ["package"] [] pkgJson * decayFactor pkgJson + 5 ∧
    5 ≤ calcScore [pkgJson] ["package"] [] pkgJson :=
  entry_bonus_undecayed.1 [pkgJson] ["package"] [] pkgJson (by decide)

/-- C7: a query with no word characters tokenizes to the empty word set
(no error), every token-based additive term contributes 0, and each score
reduces to the direct seed boost plus `8` per reaching seed, scaled by
the decay factor, plus the entry-point bonus. -/
theorem empty_query_scoring (query : String)
    (hq : ∀ c ∈ query.toList, isWordChar c = false) :
    setOf (wordRuns (lowerStr query)) = [] ∧
    ∀ (files : List FileInfo) (ctx : List String),
      calculateRelevance files query ctx =
        files.map (fun f => (f.path,
          ((if f.path ∈ ctx then 15 else 0) +
              8 * ((ctx.filter (seedQualifies files f.path)).length : ℚ)) *
            decayFactor f + entryBonus f)) := by
  have h0 := queryWords_nil query hq
  refine ⟨h0, fun files ctx => ?_⟩
  show files.map
      (fun f => (f.path,
        calcScore files (setOf (wordRuns (lowerStr query))) ctx f)) = _
  rw [h0]
  have hfun : ∀ f : FileInfo, calcScore files [] ctx f =
      ((if f.path ∈ ctx then 15 else 0) +
          8 * ((ctx.filter (seedQualifies files f.path)).length : ℚ)) *
        decayFactor f + entryBonus f := by
    intro f
    rw [calcScore_eq]
    have hraw : rawScore files [] ctx f =
        (if f.path ∈ ctx then 15 else 0) +
          8 * ((ctx.filter (seedQualifies files f.path)).length : ℚ) := by
      simp only [rawScore, List.any_nil, List.filter_nil, List.length_nil,
        seedLoop_eq, if_false, Bool.false_eq_true]
      split_ifs <;> push_cast <;> ring
    rw [hraw]
  simp only [hfun]

/-- Witness for C7: a concrete symbol-only query scored over a concrete
catalog. -/
theorem empty_query_scoring_witness :
    setOf (wordRuns (lowerStr "@#!")) = [] ∧
    calculateRelevance [settingsDoc] "@#!" [] =
      [("docs/config/settings.md", 0)] := by
  have h := empty_query_scoring "@#!" (by decide)
  exact ⟨h.1, (h.2 [settingsDoc] []).trans (by with_unfolding_all decide)⟩

/-- C8: scoring and selection are pure functions of catalog, query and
configuration — repeated invocations give identical results — and the
sort is stable: filtering the sorted list by any fixed score value gives
exactly the same-score files in their original catalog order. -/
theorem scoring_deterministic :
    (∀ (files : List FileInfo) (query : String) (maxT minF : Nat)
       (ctx : List String),
       calculateRelevance files query ctx =
           calculateRelevance files query ctx ∧
         getOptimalContext files query maxT minF ctx =
           getOptimalContext files query maxT minF ctx) ∧
    ∀ (l : List (FileInfo × ℚ)) (q : ℚ),
      (sortDesc l).filter (fun z => z.2 == q) =
        l.filter (fun z => z.2 == q) :=
  ⟨fun _ _ _ _ _ => ⟨rfl, rfl⟩, sortDesc_filter⟩

/-- C9: an extension with no configured pattern list yields the
empty import set (and no error). -/
theorem unsupported_extension_empty (content extension : String)
    (h : extension ∉ [".py", ".js", ".ts", ".jsx", ".tsx", ".vue", ".svelte",
      ".java", ".go", ".rs", ".cpp", ".c", ".h", ".hpp"]) :
    extractImports content extension = [] := by
  have hp : patternsFor extension = [] := by
    simp only [List.mem_cons, List.not_mem_nil, or_false, not_or] at h
    obtain ⟨h1, h2, h3, h4, h5, h6, h7, h8, h9, h10, h11, h12, h13, h14⟩ := h
    simp [patternsFor, h1, h2, h3, h4, h5, h6, h7, h8, h9, h10, h11, h12,
      h13, h14]
  simp [extractImports, hp, setOf]

/-- Witness for C9: a concrete unsupported extension. -/
theorem unsupported_extension_empty_witness :
    extractImports "import x" ".foo" = [] :=
  unsupported_extension_empty "import x" ".foo" (by decide)

/-- C10: every score computed by `calculateRelevance` is non-negative:
all additive terms are non-negative and the decay multipliers are
positive. -/
theorem scores_nonneg (files : List FileInfo) (query : String)
    (ctx : List String) (p : String) (s : ℚ)
    (h : (p, s) ∈ calculateRelevance files query ctx) : 0 ≤ s := by
  simp only [calculateRelevance, List.mem_map] at h
  obtain ⟨f, hf, heq⟩ := h
  have hs : s = calcScore files (setOf (wordRuns (lowerStr query))) ctx f :=
    (congrArg Prod.snd heq).symm
  rw [hs, calcScore_eq]
  have h1 := rawScore_nonneg files (setOf (wordRuns (lowerStr query))) ctx f
  have h2 := (decayFactor_pos f).le
  have h3 := entryBonus_nonneg f
  have h4 := mul_nonneg h1 h2
  linarith

/-- Witness for C10: the bound instantiated on a concrete computed
score. -/
theorem scores_nonneg_witness : (0 : ℚ) ≤ 15 :=
  scores_nonneg [apiSeed, dbClient] "" ["api.ts"] "api.ts" 15
    (by with_unfolding_all decide)

end ContextWeaver
